import Mathlib

/-!
Verification of the scheduling and execution core of git-delayed.

The development shallowly embeds the Rust sources:
  * src/executor.rs  — push orchestration (execute_push_with_branch)
  * src/schedule.rs  — time-spec parsing (parse_relative_time, parse_named_day,
                       parse_time_spec)
  * src/storage.rs   — durable queue (load_scheduled_operations,
                       remove_scheduled_operation)
  * src/daemon.rs    — the daemon loop body (run_daemon_loop)

Timestamps are modelled as integers (seconds); the external git binary is
modelled as an environment of command outcomes plus an explicit repository
state (current branch, working-tree dirtiness, stash depth) and a trace of
the git commands the orchestration issues.
-/

namespace GitDelayed

/-- PushResult from src/executor.rs: Success(String) | NothingToPush. -/
inductive PushResult where
  | Success (msg : String)
  | NothingToPush
deriving DecidableEq, Repr

/-- The git subcommands that execute_push_with_branch can issue
(stash push, checkout of a branch, push, stash pop). -/
inductive GitCmd where
  | stashPush
  | checkout (branch : String)
  | push
  | stashPop
deriving DecidableEq, Repr

/-- Abstract repository state mutated by the git commands: the checked-out
branch, whether the working tree has uncommitted changes, and how many
stash entries exist. -/
structure RepoState where
  currentBranch : String
  dirty : Bool
  stashDepth : Nat
deriving DecidableEq, Repr

/-- Environment of outcomes of the external git collaborator: whether each
command the orchestration may issue succeeds, whether the branch/status
queries fail, what needs_push answers per branch, and the text the push
prints. -/
structure GitEnv where
  branchErr : Bool
  needsPushRes : String → Except String Bool
  statusErr : Bool
  stashOk : Bool
  checkoutOk : String → Bool
  pushOk : Bool
  popOk : Bool
  pushMsg : String

/-- Semantics of one git command against the repository state: returns the
command's success flag and the updated state.  A successful stash push
cleans the tree and deepens the stash; a successful checkout switches the
branch; push leaves the modelled state alone; a successful stash pop (which
needs a non-empty stash) restores the dirty tree. -/
def runCmd (env : GitEnv) (s : RepoState) : GitCmd → Bool × RepoState
  | .stashPush =>
      if env.stashOk then
        (true, { s with dirty := false, stashDepth := s.stashDepth + 1 })
      else (false, s)
  | .checkout b =>
      if env.checkoutOk b then (true, { s with currentBranch := b })
      else (false, s)
  | .push => (env.pushOk, s)
  | .stashPop =>
      if env.popOk && decide (0 < s.stashDepth) then
        (true, { s with dirty := true, stashDepth := s.stashDepth - 1 })
      else (false, s)

/-- The tail of execute_push_with_branch after a (possible) successful
branch switch in src/executor.rs lines 78–113: run the push, then — push
outcome notwithstanding — check the original branch back out if a switch
happened, pop the stash if one was created, and return the push's own
result. -/
def finishPush (env : GitEnv) (s : RepoState) (t : List GitCmd)
    (switched stashed : Bool) (current_branch : String) :
    Except String PushResult × RepoState × List GitCmd :=
  let (pok, s1) := runCmd env s .push
  let t1 := t ++ [GitCmd.push]
  let push_result : Except String PushResult :=
    if pok then .ok (.Success env.pushMsg) else .error "push failed"
  let (s2, t2) :=
    if switched then
      let (_, s') := runCmd env s1 (.checkout current_branch)
      (s', t1 ++ [GitCmd.checkout current_branch])
    else (s1, t1)
  let (s3, t3) :=
    if stashed then
      let (_, s') := runCmd env s2 .stashPop
      (s', t2 ++ [GitCmd.stashPop])
    else (s2, t2)
  (push_result, s3, t3)

/-- Embedding of execute_push_with_branch (src/executor.rs lines 29–114).
Returns the Rust function's result together with the final repository state
and the ordered trace of git commands issued.  Control flow mirrors the
source: get the current branch, default the target to it, return
NothingToPush when needs_push is false, stash when the tree is dirty
(recording whether the stash command succeeded), check out the target when
it differs (popping the stash back and failing on checkout failure), push,
then best-effort checkout-back and stash-pop. -/
def execute_push_with_branch (env : GitEnv) (s0 : RepoState)
    (branch : Option String) :
    Except String PushResult × RepoState × List GitCmd :=
  if env.branchErr then (.error "could not get branch name", s0, [])
  else
    let current_branch := s0.currentBranch
    let target_branch := branch.getD current_branch
    match env.needsPushRes target_branch with
    | .error e => (.error e, s0, [])
    | .ok np =>
      if !np then (.ok .NothingToPush, s0, [])
      else if env.statusErr then (.error "could not read status", s0, [])
      else
        let has_changes := s0.dirty
        let (stashed, s1, t1) :=
          if has_changes then
            let (ok, s') := runCmd env s0 .stashPush
            (ok, s', [GitCmd.stashPush])
          else (false, s0, ([] : List GitCmd))
        if current_branch ≠ target_branch then
          let (cok, s2) := runCmd env s1 (.checkout target_branch)
          let t2 := t1 ++ [GitCmd.checkout target_branch]
          if !cok then
            if stashed then
              let (_, s3) := runCmd env s2 .stashPop
              (.error ("could not switch to branch " ++ target_branch), s3,
                t2 ++ [GitCmd.stashPop])
            else
              (.error ("could not switch to branch " ++ target_branch), s2, t2)
          else
            finishPush env s2 t2 true stashed current_branch
        else
          finishPush env s1 t1 false stashed current_branch

/-! ## Time-spec parsing (src/schedule.rs)

Timestamps are natural numbers of seconds since a local-time epoch that
falls on a Monday at 00:00, so that the day index is now / 86400, the
weekday number in Mondays-first counting (chrono's num_days_from_monday)
is now / 86400 % 7, and the hour of day is now % 86400 / 3600.  Character
classes of the Rust regex are modelled over ASCII (the unit words involved
are ASCII). -/

/-- ASCII lowering, modelling str::to_lowercase on the ASCII inputs
involved. -/
def lowerString (s : String) : String := String.mk (s.toList.map Char.toLower)

/-- Model of str::starts_with. -/
def strStartsWith (s p : String) : Bool :=
  decide (s.toList.take p.toList.length = p.toList)

/-- The regex class \s restricted to ASCII: space, tab, line feed,
vertical tab, form feed, carriage return. -/
def isSpaceChar (c : Char) : Bool :=
  c == ' ' || c == '\t' || c == '\n' || c == '\x0b' || c == '\x0c' || c == '\r'

/-- Value of a digit string, the number parse::<i64> reads from the first
capture group. -/
def digitsToNat (ds : List Char) : Nat :=
  ds.foldl (fun n c => n * 10 + (c.toNat - '0'.toNat)) 0

/-- Model of matching the anchored regex of parse_relative_time
(src/schedule.rs line 7): a leading plus sign, one or more digits, any
amount of whitespace, then exactly one of the six unit words — which are
lowercase in the pattern, so the match is case-sensitive.  Returns the
digit value and the unit word. -/
def matchRelativeList : List Char → Option (Nat × String)
  | [] => none
  | c :: rest =>
    if c = '+' then
      let digits := rest.takeWhile Char.isDigit
      if digits.isEmpty then none
      else
        let unit := String.mk ((rest.dropWhile Char.isDigit).dropWhile isSpaceChar)
        if unit = "hour" ∨ unit = "hours" ∨ unit = "day" ∨ unit = "days" ∨
            unit = "minute" ∨ unit = "minutes" then
          some (digitsToNat digits, unit)
        else none
    else none

def matchRelative (spec : String) : Option (Nat × String) :=
  matchRelativeList spec.toList

/-- Outcome of a Rust call that can abort the process: a value, a
recoverable error (an Err the caller sees), or a panic. -/
inductive ParseOutcome where
  | ok (t : Nat)
  | err (e : String)
  | abort
deriving DecidableEq, Repr

/-- chrono duration construction, the unit dispatch of src/schedule.rs
lines 18–24: Duration::hours, Duration::days or Duration::minutes by the
same starts_with tests the source uses, giving the duration in seconds —
or none for the constructor's panic, which fires when the duration
exceeds chrono's TimeDelta bound of i64::MAX milliseconds (the three
quotients below). -/
def chronoDuration (u : String) (amount : Nat) : Option Nat :=
  if strStartsWith u "hour" then
    if amount ≤ 2562047788015 then some (3600 * amount) else none
  else if strStartsWith u "day" then
    if amount ≤ 106751991167 then some (86400 * amount) else none
  else
    if amount ≤ 153722867280912 then some (60 * amount) else none

/-- Seconds from the model epoch — now fixed at 0001-01-01 00:00 local
time, a Monday in the proleptic Gregorian calendar, consistent with the
Monday-epoch convention above — to chrono's maximum datetime
262143-12-31 23:59:59: adding a duration that lands past this instant
panics.  The claims use only that this cutoff is finite and of this
magnitude (about 2.6 times 10^5 years), not its last digits, which in the
program also depend on the local timezone. -/
def chronoMaxSecs : Nat := 8272434009599

/-- Embedding of parse_relative_time (src/schedule.rs lines 6–27): match
the regex, fail on no match, fail when the number does not fit in i64
(parse::<i64> errors with the message below) or is zero (the amount <= 0
check), then build the chrono duration — a panic when out of bounds — and
add it to now — a panic when past chrono's maximum datetime.  The dead
re-lowering of the already-lowercase unit is kept. -/
def relativeResult (now : Nat) : Option (Nat × String) → ParseOutcome
  | none => .err "bad format, try: +10 hours"
  | some (amount, unit) =>
    if 2 ^ 63 ≤ amount then .err "number too large to fit in target type"
    else if amount = 0 then .err "amount must be positive"
    else
      let u := lowerString unit
      match chronoDuration u amount with
      | none => .abort
      | some duration =>
        if chronoMaxSecs < now + duration then .abort
        else .ok (now + duration)

def parse_relative_time (now : Nat) (spec : String) : ParseOutcome :=
  relativeResult now (matchRelative spec)

/-- Weekday lookup of parse_named_day (src/schedule.rs lines 32–41), in
chrono's num_days_from_monday numbering. -/
def weekdayFromName (s : String) : Option Nat :=
  if s = "monday" then some 0
  else if s = "tuesday" then some 1
  else if s = "wednesday" then some 2
  else if s = "thursday" then some 3
  else if s = "friday" then some 4
  else if s = "saturday" then some 5
  else if s = "sunday" then some 6
  else none

/-- Embedding of parse_named_day (src/schedule.rs lines 31–69): lower the
spec, look the weekday up, compute days_ahead (same weekday: 7 when the
hour is at least 9, else 0; later weekday this week: the difference;
earlier: seven minus the difference), and return 09:00:00 on that day. -/
def namedDayTime (now targ : Nat) : Nat :=
  let day := now / 86400
  let curr := day % 7
  let hour := now % 86400 / 3600
  let days_ahead :=
    if curr = targ then (if 9 ≤ hour then 7 else 0)
    else if curr < targ then targ - curr
    else 7 - (curr - targ)
  (day + days_ahead) * 86400 + 9 * 3600

def namedDayResult (now : Nat) (spec : String) : Option Nat → Except String Nat
  | none => .error ("unknown day: " ++ spec)
  | some targ => .ok (namedDayTime now targ)

def parse_named_day (now : Nat) (spec : String) : Except String Nat :=
  namedDayResult now spec (weekdayFromName (lowerString spec))

/-- Embedding of parse_time_spec (src/schedule.rs lines 90–114).  The
absolute grammar (parse_absolute_time, lines 72–87) is passed as a
parameter since no claim exercises its internals; the dispatch around it
is the source's: a spec starting with a plus sign goes to the relative
grammar only — its errors and panics included; otherwise a named day that
parses and lies strictly after now wins; otherwise the absolute parse is
consulted, a past result is rejected, and failure of all three yields the
generic error. -/
def parse_time_spec (absolute : String → Except String Nat) (now : Nat)
    (spec : String) : ParseOutcome :=
  if strStartsWith spec "+" then parse_relative_time now spec
  else
    let tryAbsolute : ParseOutcome :=
      match absolute spec with
      | .ok dt =>
        if dt ≤ now then .err "that time is in the past" else .ok dt
      | .error _ =>
        .err "could not parse time. try: +10 hours, Monday, or 2025-11-04 09:00"
    match parse_named_day now spec with
    | .ok dt => if now < dt then .ok dt else tryAbsolute
    | .error _ => tryAbsolute

/-! ## Data model (src/models.rs)

daemon.rs and cli.rs use the richer variant of the model — ExecutionStatus
with a Skipped case and ScheduledOperation with a branch field — which the
specification follows; models.rs as checked in lags behind it.  Timestamps
are integers (seconds). -/

inductive OperationType where
  | Commit
  | Push
deriving DecidableEq, Repr

inductive OperationState where
  | Pending
  | Failing
deriving DecidableEq, Repr

inductive ExecutionStatus where
  | Success
  | Failure
  | Cancelled
  | Skipped
deriving DecidableEq, Repr

structure ScheduledOperation where
  id : String
  repository_path : String
  operation_type : OperationType
  commit_message : String
  scheduled_time : Int
  created_at : Int
  retry_count : Nat
  state : OperationState
  branch : Option String
deriving DecidableEq, Repr

structure LogEntry where
  id : String
  repository_path : String
  operation_type : OperationType
  commit_message : String
  scheduled_time : Int
  executed_at : Int
  status : ExecutionStatus
  error_message : Option String
deriving DecidableEq, Repr

/-! ## Storage (src/storage.rs)

The backing file is modelled as an optional string (none when the file
does not exist) and serde deserialization as an oracle passed in. -/

/-- Model of content.trim().is_empty(): every character is whitespace. -/
def isBlank (s : String) : Bool := s.toList.all Char.isWhitespace

/-- Embedding of load_scheduled_operations (src/storage.rs lines 60–72): a
missing file or a file of only whitespace loads the empty queue; any other
content goes to the deserializer, whose error propagates. -/
def load_scheduled_operations
    (parse : String → Except String (List ScheduledOperation)) :
    Option String → Except String (List ScheduledOperation)
  | none => .ok []
  | some content =>
    if isBlank content then .ok []
    else parse content

/-- Embedding of remove_scheduled_operation (src/storage.rs lines 95–106):
retain the operations whose id differs; persist only when the retained
list is shorter.  Returns the stored queue after the call, whether a
removal happened (the Rust return value), and whether a save was
issued. -/
def remove_scheduled_operation (queue : List ScheduledOperation)
    (operation_id : String) : List ScheduledOperation × Bool × Bool :=
  let remaining := queue.filter (fun op => op.id != operation_id)
  if remaining.length < queue.length then (remaining, true, true)
  else (queue, false, false)

/-! ## Daemon loop (src/daemon.rs)

One iteration of run_daemon_loop (lines 50–155), with the executor
abstracted as outcome oracles and wall-clock reads as two instants: now
(the loop's reading at line 52) and now2 (the readings taken while
reconciling, which come later, so now ≤ now2).  Besides the next state the
iteration yields the ordered list of storage/executor events, to express
that the dequeue precedes the execution. -/

/-- Outcome of executor::execute_push_with_branch as the daemon sees it. -/
inductive ExecOutcome where
  | success (msg : String)
  | nothingToPush
  | failure (err : String)

inductive DaemonEvent where
  | removed (id : String)
  | execStart (id : String)
  | logged (status : ExecutionStatus)
  | reAdded (id : String)
deriving DecidableEq, Repr

structure DaemonState where
  queue : List ScheduledOperation
  logs : List LogEntry
deriving DecidableEq, Repr

/-- The sort key of line 56: ascending scheduled_time. -/
def opLE (a b : ScheduledOperation) : Bool :=
  decide (a.scheduled_time ≤ b.scheduled_time)

/-- The operation the loop body executes: the first due element of the
queue sorted by scheduled_time (lines 56–61); none when nothing is due. -/
def dueFirst (now : Int) (queue : List ScheduledOperation) :
    Option ScheduledOperation :=
  (queue.mergeSort opLE).find? (fun op => decide (op.scheduled_time ≤ now))

/-- The failed operation as re-queued (lines 95–97 and 129–131):
retry_count incremented, state Failing, scheduled_time ten minutes from
the reconciliation instant. -/
def failedOp (op : ScheduledOperation) (now2 : Int) : ScheduledOperation :=
  { op with
    retry_count := op.retry_count + 1
    state := .Failing
    scheduled_time := now2 + 600 }

/-- The Failure log entry (lines 99–108 and 133–142), built from the
already-updated operation. -/
def failureEntry (op2 : ScheduledOperation) (now2 : Int) (e : String) :
    LogEntry :=
  { id := op2.id
    repository_path := op2.repository_path
    operation_type := op2.operation_type
    commit_message :=
      op2.commit_message ++ " (retry " ++ toString op2.retry_count ++ ")"
    scheduled_time := op2.scheduled_time
    executed_at := now2
    status := .Failure
    error_message :=
      some ("retry " ++ toString op2.retry_count ++ ": " ++ e) }

/-- The Success log entry (lines 71–80 and 117–126). -/
def successEntry (op : ScheduledOperation) (now2 : Int) : LogEntry :=
  { id := op.id
    repository_path := op.repository_path
    operation_type := op.operation_type
    commit_message := op.commit_message
    scheduled_time := op.scheduled_time
    executed_at := now2
    status := .Success
    error_message := none }

/-- The Skipped log entry for NothingToPush (lines 83–92). -/
def skippedEntry (op : ScheduledOperation) (now2 : Int) : LogEntry :=
  { id := op.id
    repository_path := op.repository_path
    operation_type := op.operation_type
    commit_message := op.commit_message
    scheduled_time := op.scheduled_time
    executed_at := now2
    status := .Skipped
    error_message := some "nothing to push" }

/-- Reconciliation of a push outcome (lines 66–112), after the operation
was removed from the stored queue (leaving queue1). -/
def handlePushOutcome (now2 : Int) (st : DaemonState)
    (queue1 : List ScheduledOperation) (op : ScheduledOperation) :
    ExecOutcome → DaemonState × List DaemonEvent
  | .success _ =>
    ({ queue := queue1, logs := st.logs ++ [successEntry op now2] },
      [.removed op.id, .execStart op.id, .logged .Success])
  | .nothingToPush =>
    ({ queue := queue1, logs := st.logs ++ [skippedEntry op now2] },
      [.removed op.id, .execStart op.id, .logged .Skipped])
  | .failure e =>
    ({ queue := queue1 ++ [failedOp op now2]
       logs := st.logs ++ [failureEntry (failedOp op now2) now2 e] },
      [.removed op.id, .execStart op.id, .logged .Failure, .reAdded op.id])

/-- Reconciliation of a commit outcome (lines 114–146). -/
def handleCommitOutcome (now2 : Int) (st : DaemonState)
    (queue1 : List ScheduledOperation) (op : ScheduledOperation) :
    Except String String → DaemonState × List DaemonEvent
  | .ok _ =>
    ({ queue := queue1, logs := st.logs ++ [successEntry op now2] },
      [.removed op.id, .execStart op.id, .logged .Success])
  | .error e =>
    ({ queue := queue1 ++ [failedOp op now2]
       logs := st.logs ++ [failureEntry (failedOp op now2) now2 e] },
      [.removed op.id, .execStart op.id, .logged .Failure, .reAdded op.id])

/-- Handling of the selected due operation: remove it from the stored
queue (line 62 — remove_scheduled_operation filters by id), then execute
and reconcile by operation type (lines 65–147). -/
def handleDue (execPush : ScheduledOperation → ExecOutcome)
    (execCommit : ScheduledOperation → Except String String) (now2 : Int)
    (st : DaemonState) (op : ScheduledOperation) :
    DaemonState × List DaemonEvent :=
  let queue1 := st.queue.filter (fun o => o.id != op.id)
  if op.operation_type = OperationType.Push then
    handlePushOutcome now2 st queue1 op (execPush op)
  else
    handleCommitOutcome now2 st queue1 op (execCommit op)

/-- One iteration of the daemon loop body (lines 51–152): at most the
first due operation is processed, then the loop sleeps. -/
def daemonIteration (execPush : ScheduledOperation → ExecOutcome)
    (execCommit : ScheduledOperation → Except String String)
    (now now2 : Int) (st : DaemonState) : DaemonState × List DaemonEvent :=
  match dueFirst now st.queue with
  | none => (st, [])
  | some op => handleDue execPush execCommit now2 st op

/-- Execution of op failed: a push operation whose executor returned
failure, or a commit operation whose executor returned an error. -/
def ExecFailed (execPush : ScheduledOperation → ExecOutcome)
    (execCommit : ScheduledOperation → Except String String)
    (op : ScheduledOperation) : Prop :=
  (op.operation_type = OperationType.Push ∧
    ∃ e, execPush op = .failure e) ∨
  (op.operation_type ≠ OperationType.Push ∧
    ∃ e, execCommit op = .error e)

/-- C1: push-orchestration rollback.  Starting on branch A with uncommitted
changes, targeting B ≠ A with a push needed, with the stash command and the
restoring commands (checkout of A, stash pop) succeeding, after the
orchestration returns — the checkout of B and the push being left free to
succeed or fail, covering all three cases — the current branch is A again,
the stash depth is back to its initial value with the working tree dirty
again, and exactly one stash pop was issued. -/
theorem push_orchestration_rollback (env : GitEnv) (s0 : RepoState) (B : String)
    (hbe : env.branchErr = false)
    (hne : B ≠ s0.currentBranch)
    (hnp : env.needsPushRes B = .ok true)
    (hse : env.statusErr = false)
    (hd : s0.dirty = true)
    (hstash : env.stashOk = true)
    (hcoA : env.checkoutOk s0.currentBranch = true)
    (hpop : env.popOk = true) :
    (execute_push_with_branch env s0 (some B)).2.1.currentBranch =
        s0.currentBranch ∧
    (execute_push_with_branch env s0 (some B)).2.1.stashDepth = s0.stashDepth ∧
    (execute_push_with_branch env s0 (some B)).2.1.dirty = true ∧
    (execute_push_with_branch env s0 (some B)).2.2.count GitCmd.stashPop = 1 := by
  have hne' : s0.currentBranch ≠ B := fun h => hne h.symm
  cases hB : env.checkoutOk B <;> cases hP : env.pushOk <;>
    simp [execute_push_with_branch, finishPush, runCmd, hbe, hnp, hse, hd,
      hstash, hcoA, hpop, hne', hB, hP, List.count_append]

/-- Witness for C1 at a concrete environment and state (current branch
main, dirty tree, target dev, checkout of dev failing). -/
theorem push_orchestration_rollback_witness :
    (execute_push_with_branch
        ⟨false, fun _ => .ok true, false, true, fun b => b == "main", true,
          true, "ok"⟩
        ⟨"main", true, 0⟩ (some "dev")).2.1.currentBranch = "main" ∧
    (execute_push_with_branch
        ⟨false, fun _ => .ok true, false, true, fun b => b == "main", true,
          true, "ok"⟩
        ⟨"main", true, 0⟩ (some "dev")).2.1.stashDepth = 0 ∧
    (execute_push_with_branch
        ⟨false, fun _ => .ok true, false, true, fun b => b == "main", true,
          true, "ok"⟩
        ⟨"main", true, 0⟩ (some "dev")).2.1.dirty = true ∧
    (execute_push_with_branch
        ⟨false, fun _ => .ok true, false, true, fun b => b == "main", true,
          true, "ok"⟩
        ⟨"main", true, 0⟩ (some "dev")).2.2.count GitCmd.stashPop = 1 :=
  push_orchestration_rollback _ _ _ rfl (by decide) rfl rfl rfl rfl
    (by decide) rfl

/-- C3: when needs_push answers false for the target branch, the
orchestration returns NothingToPush at once, the repository state is
unchanged, and no git command at all (stash, checkout or push) is
issued. -/
theorem nothing_to_push_no_side_effects (env : GitEnv) (s0 : RepoState)
    (branch : Option String)
    (hbe : env.branchErr = false)
    (hnp : env.needsPushRes (branch.getD s0.currentBranch) = .ok false) :
    execute_push_with_branch env s0 branch = (.ok .NothingToPush, s0, []) := by
  simp [execute_push_with_branch, hbe, hnp]

/-- Witness for C3 at a concrete environment and state. -/
theorem nothing_to_push_no_side_effects_witness :
    execute_push_with_branch
        ⟨false, fun _ => .ok false, false, true, fun _ => true, true, true,
          "ok"⟩
        ⟨"main", true, 0⟩ (some "dev") = (.ok .NothingToPush, ⟨"main", true, 0⟩, []) :=
  nothing_to_push_no_side_effects _ _ _ rfl rfl

/-- C4: when the target differs from the current branch and its checkout
fails, the orchestration fails with the checkout error, never issues a
push, issues exactly the commands stash (when the tree was dirty), the
failed checkout, and — when the stash was created — a stash pop; and when
the stash and pop both succeed the repository state is fully restored. -/
theorem checkout_failure_aborts (env : GitEnv) (s0 : RepoState) (B : String)
    (hbe : env.branchErr = false)
    (hne : B ≠ s0.currentBranch)
    (hnp : env.needsPushRes B = .ok true)
    (hse : env.statusErr = false)
    (hco : env.checkoutOk B = false) :
    (execute_push_with_branch env s0 (some B)).1 =
        .error ("could not switch to branch " ++ B) ∧
    GitCmd.push ∉ (execute_push_with_branch env s0 (some B)).2.2 ∧
    (execute_push_with_branch env s0 (some B)).2.2 =
      (if s0.dirty && env.stashOk then
        [GitCmd.stashPush, GitCmd.checkout B, GitCmd.stashPop]
      else if s0.dirty then [GitCmd.stashPush, GitCmd.checkout B]
      else [GitCmd.checkout B]) ∧
    (s0.dirty = true → env.stashOk = true → env.popOk = true →
      (execute_push_with_branch env s0 (some B)).2.1 = s0) := by
  have hne' : s0.currentBranch ≠ B := fun h => hne h.symm
  obtain ⟨cb, d, n⟩ := s0
  simp only [Ne] at hne'
  cases hd : d <;> cases hst : env.stashOk <;> cases hpop : env.popOk <;>
    simp_all [execute_push_with_branch, finishPush, runCmd, hbe, hnp, hse,
      hco]

/-- Witness for C4 at a concrete environment and state (dirty tree, stash
succeeds, checkout of dev fails). -/
theorem checkout_failure_aborts_witness :
    (execute_push_with_branch
        ⟨false, fun _ => .ok true, false, true, fun b => b == "main", true,
          true, "ok"⟩
        ⟨"main", true, 0⟩ (some "dev")).1 =
        .error ("could not switch to branch " ++ "dev") ∧
    GitCmd.push ∉ (execute_push_with_branch
        ⟨false, fun _ => .ok true, false, true, fun b => b == "main", true,
          true, "ok"⟩
        ⟨"main", true, 0⟩ (some "dev")).2.2 ∧
    (execute_push_with_branch
        ⟨false, fun _ => .ok true, false, true, fun b => b == "main", true,
          true, "ok"⟩
        ⟨"main", true, 0⟩ (some "dev")).2.2 =
      (if true && true then
        [GitCmd.stashPush, GitCmd.checkout "dev", GitCmd.stashPop]
      else if true then [GitCmd.stashPush, GitCmd.checkout "dev"]
      else [GitCmd.checkout "dev"]) ∧
    (true = true → true = true → true = true →
      (execute_push_with_branch
        ⟨false, fun _ => .ok true, false, true, fun b => b == "main", true,
          true, "ok"⟩
        ⟨"main", true, 0⟩ (some "dev")).2.1 = ⟨"main", true, 0⟩) :=
  checkout_failure_aborts _ _ _ rfl (by decide) rfl rfl (by decide)

/-- C9: when the tree is dirty but the stash command fails, the
orchestration does not stop: it records no stash, proceeds to the checkout
and the push with the tree still dirty, never issues a stash pop, and its
result is exactly the push's own result. -/
theorem stash_failure_proceeds (env : GitEnv) (s0 : RepoState) (B : String)
    (hbe : env.branchErr = false)
    (hne : B ≠ s0.currentBranch)
    (hnp : env.needsPushRes B = .ok true)
    (hse : env.statusErr = false)
    (hd : s0.dirty = true)
    (hstash : env.stashOk = false)
    (hcoB : env.checkoutOk B = true) :
    (execute_push_with_branch env s0 (some B)).2.2 =
      [GitCmd.stashPush, GitCmd.checkout B, GitCmd.push,
        GitCmd.checkout s0.currentBranch] ∧
    GitCmd.stashPop ∉ (execute_push_with_branch env s0 (some B)).2.2 ∧
    (execute_push_with_branch env s0 (some B)).1 =
      (if env.pushOk then .ok (.Success env.pushMsg)
       else .error "push failed") ∧
    (execute_push_with_branch env s0 (some B)).2.1.dirty = true ∧
    (execute_push_with_branch env s0 (some B)).2.1.stashDepth =
      s0.stashDepth := by
  have hne' : s0.currentBranch ≠ B := fun h => hne h.symm
  cases hP : env.pushOk <;>
    cases hA : env.checkoutOk s0.currentBranch <;>
      simp [execute_push_with_branch, finishPush, runCmd, hbe, hnp, hse, hne',
        hd, hstash, hcoB, hP, hA]

/-- Witness for C9 at a concrete environment and state (stash command
failing, checkout and push succeeding). -/
theorem stash_failure_proceeds_witness :
    (execute_push_with_branch
        ⟨false, fun _ => .ok true, false, false, fun _ => true, true, true,
          "ok"⟩
        ⟨"main", true, 2⟩ (some "dev")).2.2 =
      [GitCmd.stashPush, GitCmd.checkout "dev", GitCmd.push,
        GitCmd.checkout "main"] ∧
    GitCmd.stashPop ∉ (execute_push_with_branch
        ⟨false, fun _ => .ok true, false, false, fun _ => true, true, true,
          "ok"⟩
        ⟨"main", true, 2⟩ (some "dev")).2.2 ∧
    (execute_push_with_branch
        ⟨false, fun _ => .ok true, false, false, fun _ => true, true, true,
          "ok"⟩
        ⟨"main", true, 2⟩ (some "dev")).1 =
      (if true then .ok (.Success "ok") else .error "push failed") ∧
    (execute_push_with_branch
        ⟨false, fun _ => .ok true, false, false, fun _ => true, true, true,
          "ok"⟩
        ⟨"main", true, 2⟩ (some "dev")).2.1.dirty = true ∧
    (execute_push_with_branch
        ⟨false, fun _ => .ok true, false, false, fun _ => true, true, true,
          "ok"⟩
        ⟨"main", true, 2⟩ (some "dev")).2.1.stashDepth = 2 :=
  stash_failure_proceeds _ _ _ rfl (by decide) rfl rfl rfl rfl rfl

/-! ### Parsing lemmas for C5 and C6 -/

theorem toList_mk (cs : List Char) : (String.mk cs).toList = cs := rfl

theorem mk_toList (s : String) : String.mk s.toList = s := rfl

theorem matchRelativeList_cons (c : Char) (rest : List Char) :
    matchRelativeList (c :: rest) =
      (if c = '+' then
        if (rest.takeWhile Char.isDigit).isEmpty then none
        else
          if String.mk ((rest.dropWhile Char.isDigit).dropWhile isSpaceChar) = "hour" ∨
              String.mk ((rest.dropWhile Char.isDigit).dropWhile isSpaceChar) = "hours" ∨
              String.mk ((rest.dropWhile Char.isDigit).dropWhile isSpaceChar) = "day" ∨
              String.mk ((rest.dropWhile Char.isDigit).dropWhile isSpaceChar) = "days" ∨
              String.mk ((rest.dropWhile Char.isDigit).dropWhile isSpaceChar) = "minute" ∨
              String.mk ((rest.dropWhile Char.isDigit).dropWhile isSpaceChar) = "minutes" then
            some (digitsToNat (rest.takeWhile Char.isDigit),
              String.mk ((rest.dropWhile Char.isDigit).dropWhile isSpaceChar))
          else none
      else none) := rfl

theorem takeWhile_all_append {p : Char → Bool} (ds t : List Char) (x : Char)
    (h : ∀ c ∈ ds, p c = true) (hx : p x = false) :
    (ds ++ x :: t).takeWhile p = ds ∧ (ds ++ x :: t).dropWhile p = x :: t := by
  induction ds with
  | nil => simp [List.takeWhile, List.dropWhile, hx]
  | cons a l ih =>
    have ha := h a (by simp)
    have hl := ih (fun c hc => h c (by simp [hc]))
    simp [List.takeWhile, List.dropWhile, ha, hl.1, hl.2]

theorem dropWhile_space_cons (t : List Char) :
    List.dropWhile isSpaceChar (' ' :: t) = List.dropWhile isSpaceChar t := by
  simp [List.dropWhile, isSpaceChar]

theorem matchRelative_plus (ds : List Char) (unit : String)
    (hne : ds ≠ []) (hdig : ∀ c ∈ ds, c.isDigit = true)
    (hhead : List.dropWhile isSpaceChar unit.toList = unit.toList)
    (hunit : unit = "hour" ∨ unit = "hours" ∨ unit = "day" ∨ unit = "days" ∨
        unit = "minute" ∨ unit = "minutes") :
    matchRelative (String.mk ('+' :: (ds ++ ' ' :: unit.toList))) =
      some (digitsToNat ds, unit) := by
  have hsplit := takeWhile_all_append (p := Char.isDigit) ds unit.toList ' '
    hdig (by decide)
  have hemp : ds.isEmpty = false := by
    cases ds with
    | nil => exact absurd rfl hne
    | cons a l => rfl
  unfold matchRelative
  simp only [toList_mk]
  rw [matchRelativeList_cons, if_pos rfl, hsplit.1, hsplit.2, hemp,
    dropWhile_space_cons, hhead, mk_toList]
  simp only [Bool.false_eq_true, if_false, if_pos hunit]

theorem weekdayFromName_lt (s : String) (targ : Nat)
    (h : weekdayFromName s = some targ) : targ < 7 := by
  unfold weekdayFromName at h
  split_ifs at h <;> simp_all <;> omega

/-- C5 counterexample: each divergence of the claim from the code at a
concrete input.  The claim holds the unit to match case-insensitively,
but the regex of parse_relative_time is case-sensitive: "+1 Hour" is
rejected with the format error while "+1 hour" parses to now plus one
hour.  The claim asserts success for every positive N, but
"+4000000000 days" (about eleven million years) panics in the DateTime
addition instead of returning a timestamp, and
"+9223372036854775808 hours" (N = 2^63, beyond i64) fails the
parse::<i64> step with its overflow error. -/
theorem relative_grammar_counterexample :
    parse_relative_time 0 "+1 Hour" = .err "bad format, try: +10 hours" ∧
    parse_relative_time 0 "+1 hour" = .ok 3600 ∧
    parse_relative_time 0 "+4000000000 days" = .abort ∧
    parse_relative_time 0 "+9223372036854775808 hours" =
      .err "number too large to fit in target type" :=
  ⟨rfl, rfl, rfl, rfl⟩

/-- C5 (amended): a spec starting with a plus sign is dispatched to the
relative grammar only, whatever the other grammars would say.  A matching
spec +N unit with lowercase unit is fully characterized: N at or beyond
2^63 fails the i64 parse; N = 0 is rejected as non-positive; a duration
beyond chrono's TimeDelta bound, or an instant past chrono's maximum
datetime, panics; and otherwise the result is exactly now plus the
duration — which the chronoDuration table ties to N times the unit's
seconds.  A '+'-spec the regex does not match is rejected with the format
error. -/
theorem relative_grammar_characterization :
    (∀ (abs : String → Except String Nat) (now : Nat) (spec : String),
        strStartsWith spec "+" = true →
        parse_time_spec abs now spec = parse_relative_time now spec) ∧
    (∀ (now : Nat) (ds : List Char) (unit : String),
        ds ≠ [] → (∀ c ∈ ds, c.isDigit = true) →
        unit ∈ (["hour", "hours", "day", "days", "minute", "minutes"] :
          List String) →
        parse_relative_time now (String.mk ('+' :: (ds ++ ' ' :: unit.toList))) =
          (if 2 ^ 63 ≤ digitsToNat ds then
            .err "number too large to fit in target type"
          else if digitsToNat ds = 0 then .err "amount must be positive"
          else
            match chronoDuration unit (digitsToNat ds) with
            | none => .abort
            | some duration =>
              if chronoMaxSecs < now + duration then .abort
              else .ok (now + duration))) ∧
    (∀ (now : Nat) (ds : List Char) (unit : String) (dur : Nat),
        ds ≠ [] → (∀ c ∈ ds, c.isDigit = true) →
        0 < digitsToNat ds → digitsToNat ds < 2 ^ 63 →
        unit ∈ (["hour", "hours", "day", "days", "minute", "minutes"] :
          List String) →
        chronoDuration unit (digitsToNat ds) = some dur →
        now + dur ≤ chronoMaxSecs →
        parse_relative_time now (String.mk ('+' :: (ds ++ ' ' :: unit.toList))) =
          .ok (now + dur)) ∧
    (∀ N : Nat,
        chronoDuration "hour" N =
          (if N ≤ 2562047788015 then some (3600 * N) else none) ∧
        chronoDuration "hours" N =
          (if N ≤ 2562047788015 then some (3600 * N) else none) ∧
        chronoDuration "day" N =
          (if N ≤ 106751991167 then some (86400 * N) else none) ∧
        chronoDuration "days" N =
          (if N ≤ 106751991167 then some (86400 * N) else none) ∧
        chronoDuration "minute" N =
          (if N ≤ 153722867280912 then some (60 * N) else none) ∧
        chronoDuration "minutes" N =
          (if N ≤ 153722867280912 then some (60 * N) else none)) ∧
    (∀ now : Nat,
      parse_relative_time now "+0 hours" = .err "amount must be positive") ∧
    (∀ (now : Nat) (spec : String), matchRelative spec = none →
        parse_relative_time now spec = .err "bad format, try: +10 hours") := by
  refine ⟨?_, ?_, ?_, ?_, ?_, ?_⟩
  · intro abs now spec h
    simp [parse_time_spec, h]
  · intro now ds unit hne hdig hu
    simp only [List.mem_cons, List.mem_singleton, List.not_mem_nil,
      or_false] at hu
    have hm := matchRelative_plus ds unit hne hdig
      (by rcases hu with rfl | rfl | rfl | rfl | rfl | rfl <;> decide) hu
    unfold parse_relative_time
    rw [hm]
    simp only [relativeResult]
    rcases hu with rfl | rfl | rfl | rfl | rfl | rfl <;> rfl
  · intro now ds unit dur hne hdig hpos hlt hu hdur hmax
    have h63 : ¬ (2 ^ 63 ≤ digitsToNat ds) := Nat.not_le.mpr hlt
    have h0 : ¬ (digitsToNat ds = 0) := Nat.pos_iff_ne_zero.mp hpos
    simp only [List.mem_cons, List.mem_singleton, List.not_mem_nil,
      or_false] at hu
    have hm := matchRelative_plus ds unit hne hdig
      (by rcases hu with rfl | rfl | rfl | rfl | rfl | rfl <;> decide) hu
    have hdur2 : chronoDuration (lowerString unit) (digitsToNat ds) =
        some dur := by
      rcases hu with rfl | rfl | rfl | rfl | rfl | rfl <;> exact hdur
    unfold parse_relative_time
    rw [hm]
    simp only [relativeResult]
    rw [if_neg h63, if_neg h0, hdur2]
    show (if chronoMaxSecs < now + dur then ParseOutcome.abort
      else .ok (now + dur)) = .ok (now + dur)
    rw [if_neg (Nat.not_lt.mpr hmax)]
  · intro N
    exact ⟨rfl, rfl, rfl, rfl, rfl, rfl⟩
  · intro now
    rfl
  · intro now spec h
    simp [parse_relative_time, relativeResult, h]

/-- Witness for C5 (amended) at the concrete spec "+2 hours" against
reference instant 5. -/
theorem relative_grammar_characterization_witness :
    parse_relative_time 5 (String.mk ('+' :: (['2'] ++ ' ' :: "hours".toList))) =
      .ok (5 + 7200) :=
  relative_grammar_characterization.2.2.1 5 ['2'] "hours" 7200 (by decide)
    (by decide) (by decide) (by decide) (by decide) rfl (by decide)

/-- C6: for every case-insensitive weekday name, the parsed result is at
09:00:00 on a day of the requested weekday; when today is that weekday it
is today before 09:00 and exactly seven days ahead at or past 09:00; and
otherwise it is the next calendar occurrence — strictly between today and
seven days out. -/
theorem named_day_nine_am_next_occurrence (now : Nat) (spec : String)
    (targ : Nat) (h : weekdayFromName (lowerString spec) = some targ) :
    parse_named_day now spec = .ok (namedDayTime now targ) ∧
    namedDayTime now targ % 86400 = 9 * 3600 ∧
    namedDayTime now targ / 86400 % 7 = targ ∧
    (now / 86400 % 7 = targ → now % 86400 / 3600 < 9 →
      namedDayTime now targ / 86400 = now / 86400) ∧
    (now / 86400 % 7 = targ → 9 ≤ now % 86400 / 3600 →
      namedDayTime now targ / 86400 = now / 86400 + 7) ∧
    (now / 86400 % 7 ≠ targ →
      now / 86400 < namedDayTime now targ / 86400 ∧
      namedDayTime now targ / 86400 < now / 86400 + 7) := by
  have htarg := weekdayFromName_lt _ _ h
  refine ⟨by simp [parse_named_day, h, namedDayResult], ?_, ?_, ?_, ?_, ?_⟩ <;>
    · intros
      simp only [namedDayTime]
      split_ifs <;> omega

/-- Witness for C6 on a Tuesday at 10:00 asking for "Tuesday" (same
weekday at or past 09:00). -/
theorem named_day_nine_am_next_occurrence_witness :
    parse_named_day 122400 "Tuesday" = .ok (namedDayTime 122400 1) ∧
    namedDayTime 122400 1 % 86400 = 9 * 3600 ∧
    namedDayTime 122400 1 / 86400 % 7 = 1 ∧
    (122400 / 86400 % 7 = 1 → 122400 % 86400 / 3600 < 9 →
      namedDayTime 122400 1 / 86400 = 122400 / 86400) ∧
    (122400 / 86400 % 7 = 1 → 9 ≤ 122400 % 86400 / 3600 →
      namedDayTime 122400 1 / 86400 = 122400 / 86400 + 7) ∧
    (122400 / 86400 % 7 ≠ 1 →
      122400 / 86400 < namedDayTime 122400 1 / 86400 ∧
      namedDayTime 122400 1 / 86400 < 122400 / 86400 + 7) :=
  named_day_nine_am_next_occurrence 122400 "Tuesday" 1 (by decide)

/-- C7: loading the queue yields the empty queue — not an error — when the
backing file is missing or holds only whitespace, and propagates the
deserializer's error verbatim on any other content. -/
theorem load_missing_empty_or_malformed
    (parse : String → Except String (List ScheduledOperation)) :
    load_scheduled_operations parse none = .ok [] ∧
    (∀ content, isBlank content = true →
      load_scheduled_operations parse (some content) = .ok []) ∧
    (∀ content e, isBlank content = false → parse content = .error e →
      load_scheduled_operations parse (some content) = .error e) := by
  refine ⟨rfl, ?_, ?_⟩
  · intro content h
    simp [load_scheduled_operations, h]
  · intro content e h hp
    simp [load_scheduled_operations, h, hp]

/-- Witness for C7: a missing file, a whitespace file, and a malformed
file against a deserializer that rejects everything. -/
theorem load_missing_empty_or_malformed_witness :
    load_scheduled_operations (fun _ => .error "malformed") none = .ok [] ∧
    load_scheduled_operations (fun _ => .error "malformed") (some " ") = .ok [] ∧
    load_scheduled_operations (fun _ => .error "malformed") (some "junk") =
      .error "malformed" :=
  ⟨(load_missing_empty_or_malformed _).1,
    (load_missing_empty_or_malformed _).2.1 " " (by decide),
    (load_missing_empty_or_malformed _).2.2 "junk" "malformed" (by decide) rfl⟩

/-- C8: remove returns true exactly when an operation with the id is
present; the save happens exactly when it returns true; and on a miss the
stored queue is left untouched, while on a hit it is the id-filtered
queue. -/
theorem remove_reports_presence_and_persists
    (queue : List ScheduledOperation) (oid : String) :
    ((remove_scheduled_operation queue oid).2.1 = true ↔
      ∃ op ∈ queue, op.id = oid) ∧
    (remove_scheduled_operation queue oid).2.2 =
      (remove_scheduled_operation queue oid).2.1 ∧
    ((remove_scheduled_operation queue oid).2.1 = false →
      (remove_scheduled_operation queue oid).1 = queue) ∧
    ((remove_scheduled_operation queue oid).2.1 = true →
      (remove_scheduled_operation queue oid).1 =
        queue.filter (fun op => op.id != oid)) := by
  have hiff : (queue.filter (fun op => op.id != oid)).length < queue.length ↔
      ∃ op ∈ queue, op.id = oid := by
    rw [List.length_filter_lt_length_iff_exists]
    simp [bne]
  by_cases h : (queue.filter (fun op => op.id != oid)).length < queue.length
  · have hex := hiff.mp h
    simp [remove_scheduled_operation, h, hex]
  · have hnex : ¬ ∃ op ∈ queue, op.id = oid := fun hex => h (hiff.mpr hex)
    simp [remove_scheduled_operation, h, hnex]

/-- Witness for C8 on a one-element queue: a hit removes and persists, a
miss changes nothing. -/
theorem remove_reports_presence_and_persists_witness :
    ((remove_scheduled_operation
        [⟨"a", "/r", .Commit, "m", 0, 0, 0, .Pending, none⟩] "a").2.1 = true ↔
      ∃ op ∈ [(⟨"a", "/r", .Commit, "m", 0, 0, 0, .Pending, none⟩ :
        ScheduledOperation)], op.id = "a") ∧
    (remove_scheduled_operation
        [⟨"a", "/r", .Commit, "m", 0, 0, 0, .Pending, none⟩] "a").2.2 =
      (remove_scheduled_operation
        [⟨"a", "/r", .Commit, "m", 0, 0, 0, .Pending, none⟩] "a").2.1 ∧
    ((remove_scheduled_operation
        [⟨"a", "/r", .Commit, "m", 0, 0, 0, .Pending, none⟩] "a").2.1 = false →
      (remove_scheduled_operation
        [⟨"a", "/r", .Commit, "m", 0, 0, 0, .Pending, none⟩] "a").1 =
        [⟨"a", "/r", .Commit, "m", 0, 0, 0, .Pending, none⟩]) ∧
    ((remove_scheduled_operation
        [⟨"a", "/r", .Commit, "m", 0, 0, 0, .Pending, none⟩] "a").2.1 = true →
      (remove_scheduled_operation
        [⟨"a", "/r", .Commit, "m", 0, 0, 0, .Pending, none⟩] "a").1 =
        [(⟨"a", "/r", .Commit, "m", 0, 0, 0, .Pending, none⟩ :
          ScheduledOperation)].filter (fun op => op.id != "a")) :=
  remove_reports_presence_and_persists
    [⟨"a", "/r", .Commit, "m", 0, 0, 0, .Pending, none⟩] "a"


/-! ### Daemon-loop lemmas for C2 and C10 -/

/-- The operation the loop selects is due. -/
theorem dueFirst_due (now : Int) (queue : List ScheduledOperation)
    (op : ScheduledOperation) (h : dueFirst now queue = some op) :
    op.scheduled_time ≤ now := by
  unfold dueFirst at h
  have hp := List.find?_some
    (p := fun (o : ScheduledOperation) => decide (o.scheduled_time ≤ now)) h
  exact of_decide_eq_true hp

theorem dueFirst_min (now : Int) (queue : List ScheduledOperation)
    (op : ScheduledOperation) (h : dueFirst now queue = some op) :
    ∀ o ∈ queue, o.scheduled_time ≤ now →
      op.scheduled_time ≤ o.scheduled_time := by
  intro o ho hdue
  unfold dueFirst at h
  have hperm := List.mergeSort_perm queue opLE
  have hsorted := @List.sorted_mergeSort ScheduledOperation opLE
    (fun a b c hab hbc => by
      simp only [opLE, decide_eq_true_eq] at *
      omega)
    (fun a b => by
      simp only [opLE, Bool.or_eq_true, decide_eq_true_eq]
      omega) queue
  rw [List.find?_eq_some] at h
  obtain ⟨hp, l1, l2, hsplit, hl1⟩ := h
  have homem : o ∈ l1 ++ op :: l2 := by
    rw [← hsplit]
    exact (hperm.mem_iff).mpr ho
  rw [hsplit] at hsorted
  rcases List.mem_append.mp homem with h1 | h2
  · have := hl1 o h1
    simp only [Bool.not_eq_true', decide_eq_false_iff_not] at this
    exact absurd hdue this
  · rcases List.mem_cons.mp h2 with rfl | h3
    · exact le_refl _
    · have := (List.pairwise_append.mp hsorted).2.1
      have h4 := (List.pairwise_cons.mp this).1 o h3
      simpa [opLE] using h4

/-- C2: when the selected due operation's execution fails, the iteration
increments its retry_count, sets its state to Failing, moves its
scheduled_time to ten minutes after the reconciliation instant — strictly
later than the previous scheduled_time, since that one was due — appends
exactly one Failure log entry, and re-enqueues the operation; nothing in
the path inspects retry_count, so this holds for every retry_count. -/
theorem exec_failure_requeues_with_backoff
    (execPush : ScheduledOperation → ExecOutcome)
    (execCommit : ScheduledOperation → Except String String)
    (now now2 : Int) (st : DaemonState) (op : ScheduledOperation) (e : String)
    (hfind : dueFirst now st.queue = some op)
    (hnow : now ≤ now2)
    (hfail : (op.operation_type = OperationType.Push ∧
        execPush op = .failure e) ∨
      (op.operation_type ≠ OperationType.Push ∧ execCommit op = .error e)) :
    (daemonIteration execPush execCommit now now2 st).1.queue =
      st.queue.filter (fun o => o.id != op.id) ++ [failedOp op now2] ∧
    failedOp op now2 ∈ (daemonIteration execPush execCommit now now2 st).1.queue ∧
    (failedOp op now2).retry_count = op.retry_count + 1 ∧
    (failedOp op now2).state = .Failing ∧
    (failedOp op now2).scheduled_time = now2 + 600 ∧
    op.scheduled_time < (failedOp op now2).scheduled_time ∧
    (daemonIteration execPush execCommit now now2 st).1.logs =
      st.logs ++ [failureEntry (failedOp op now2) now2 e] ∧
    (failureEntry (failedOp op now2) now2 e).status = .Failure := by
  have hdue := dueFirst_due now st.queue op hfind
  have hiter : daemonIteration execPush execCommit now now2 st =
      ({ queue := st.queue.filter (fun o => o.id != op.id) ++ [failedOp op now2]
         logs := st.logs ++ [failureEntry (failedOp op now2) now2 e] },
        [.removed op.id, .execStart op.id, .logged .Failure, .reAdded op.id]) := by
    rcases hfail with ⟨htype, hexec⟩ | ⟨htype, hexec⟩
    · simp [daemonIteration, hfind, handleDue, htype, hexec, handlePushOutcome]
    · simp [daemonIteration, hfind, handleDue, htype, hexec, handleCommitOutcome]
  refine ⟨by rw [hiter], by rw [hiter]; simp, rfl, rfl, rfl, ?_, by rw [hiter], rfl⟩
  show op.scheduled_time < now2 + 600
  omega


/-- C10: when nothing is due the iteration does nothing; otherwise exactly
one operation — a due one with the least scheduled_time among the due —
is executed, its removal from the stored queue precedes the executor start
in the event order and leaves no operation with its id in the stored
queue, and it is re-added exactly when its execution failed. -/
theorem daemon_processes_single_earliest_due
    (execPush : ScheduledOperation → ExecOutcome)
    (execCommit : ScheduledOperation → Except String String)
    (now now2 : Int) (st : DaemonState) :
    (dueFirst now st.queue = none →
      daemonIteration execPush execCommit now now2 st = (st, [])) ∧
    (∀ op, dueFirst now st.queue = some op →
      op.scheduled_time ≤ now ∧
      (∀ o ∈ st.queue, o.scheduled_time ≤ now →
        op.scheduled_time ≤ o.scheduled_time) ∧
      (∀ o ∈ st.queue.filter (fun o => o.id != op.id), o.id ≠ op.id) ∧
      (∃ r, (daemonIteration execPush execCommit now now2 st).2 =
          DaemonEvent.removed op.id :: DaemonEvent.execStart op.id :: r ∧
          ∀ i, DaemonEvent.execStart i ∉ r) ∧
      (ExecFailed execPush execCommit op →
        (daemonIteration execPush execCommit now now2 st).1.queue =
          st.queue.filter (fun o => o.id != op.id) ++ [failedOp op now2]) ∧
      (¬ ExecFailed execPush execCommit op →
        (daemonIteration execPush execCommit now now2 st).1.queue =
          st.queue.filter (fun o => o.id != op.id))) := by
  constructor
  · intro h
    simp [daemonIteration, h]
  · intro op hfind
    refine ⟨dueFirst_due now st.queue op hfind,
      dueFirst_min now st.queue op hfind, ?_, ?_⟩
    · intro o ho
      have hmem := List.mem_filter.mp ho
      simpa [bne] using hmem.2
    cases htype : op.operation_type with
    | Push =>
      cases hx : execPush op with
      | success m =>
        have hiter : daemonIteration execPush execCommit now now2 st =
            ({ queue := st.queue.filter (fun o => o.id != op.id)
               logs := st.logs ++ [successEntry op now2] },
              [.removed op.id, .execStart op.id, .logged .Success]) := by
          simp [daemonIteration, hfind, handleDue, htype, hx, handlePushOutcome]
        refine ⟨⟨[.logged .Success], by rw [hiter], by intro i; simp⟩,
          fun hf => ?_, fun _ => by rw [hiter]⟩
        rcases hf with ⟨_, e, hfe⟩ | ⟨hne, _⟩
        · rw [hx] at hfe
          cases hfe
        · exact absurd htype hne
      | nothingToPush =>
        have hiter : daemonIteration execPush execCommit now now2 st =
            ({ queue := st.queue.filter (fun o => o.id != op.id)
               logs := st.logs ++ [skippedEntry op now2] },
              [.removed op.id, .execStart op.id, .logged .Skipped]) := by
          simp [daemonIteration, hfind, handleDue, htype, hx, handlePushOutcome]
        refine ⟨⟨[.logged .Skipped], by rw [hiter], by intro i; simp⟩,
          fun hf => ?_, fun _ => by rw [hiter]⟩
        rcases hf with ⟨_, e, hfe⟩ | ⟨hne, _⟩
        · rw [hx] at hfe
          cases hfe
        · exact absurd htype hne
      | failure e =>
        have hiter : daemonIteration execPush execCommit now now2 st =
            ({ queue := st.queue.filter (fun o => o.id != op.id) ++
                 [failedOp op now2]
               logs := st.logs ++ [failureEntry (failedOp op now2) now2 e] },
              [.removed op.id, .execStart op.id, .logged .Failure,
                .reAdded op.id]) := by
          simp [daemonIteration, hfind, handleDue, htype, hx, handlePushOutcome]
        refine ⟨⟨[.logged .Failure, .reAdded op.id], by rw [hiter],
            by intro i; simp⟩,
          fun _ => by rw [hiter], fun hnf => ?_⟩
        exact absurd (Or.inl ⟨htype, e, hx⟩) hnf
    | Commit =>
      have htype2 : op.operation_type ≠ OperationType.Push := by
        rw [htype]
        intro hc
        cases hc
      cases hx : execCommit op with
      | ok m =>
        have hiter : daemonIteration execPush execCommit now now2 st =
            ({ queue := st.queue.filter (fun o => o.id != op.id)
               logs := st.logs ++ [successEntry op now2] },
              [.removed op.id, .execStart op.id, .logged .Success]) := by
          simp [daemonIteration, hfind, handleDue, htype2, hx,
            handleCommitOutcome]
        refine ⟨⟨[.logged .Success], by rw [hiter], by intro i; simp⟩,
          fun hf => ?_, fun _ => by rw [hiter]⟩
        rcases hf with ⟨hp, _⟩ | ⟨_, e, hfe⟩
        · exact absurd hp htype2
        · rw [hx] at hfe
          cases hfe
      | error e =>
        have hiter : daemonIteration execPush execCommit now now2 st =
            ({ queue := st.queue.filter (fun o => o.id != op.id) ++
                 [failedOp op now2]
               logs := st.logs ++ [failureEntry (failedOp op now2) now2 e] },
              [.removed op.id, .execStart op.id, .logged .Failure,
                .reAdded op.id]) := by
          simp [daemonIteration, hfind, handleDue, htype2, hx,
            handleCommitOutcome]
        refine ⟨⟨[.logged .Failure, .reAdded op.id], by rw [hiter],
            by intro i; simp⟩,
          fun _ => by rw [hiter], fun hnf => ?_⟩
        exact absurd (Or.inr ⟨htype2, e, hx⟩) hnf


/-- Witness for C2: a due push operation whose executor fails. -/
theorem exec_failure_requeues_with_backoff_witness :
    (daemonIteration (fun _ => ExecOutcome.failure "boom")
        (fun _ => Except.ok "") 0 5
        ⟨[⟨"a", "/r", .Push, "m", 0, 0, 0, .Pending, none⟩], []⟩).1.queue =
      ([⟨"a", "/r", .Push, "m", 0, 0, 0, .Pending, none⟩] :
          List ScheduledOperation).filter (fun o => o.id != "a") ++
        [failedOp ⟨"a", "/r", .Push, "m", 0, 0, 0, .Pending, none⟩ 5] ∧
    failedOp ⟨"a", "/r", .Push, "m", 0, 0, 0, .Pending, none⟩ 5 ∈
      (daemonIteration (fun _ => ExecOutcome.failure "boom")
        (fun _ => Except.ok "") 0 5
        ⟨[⟨"a", "/r", .Push, "m", 0, 0, 0, .Pending, none⟩], []⟩).1.queue ∧
    (failedOp ⟨"a", "/r", .Push, "m", 0, 0, 0, .Pending, none⟩ 5).retry_count =
      0 + 1 ∧
    (failedOp ⟨"a", "/r", .Push, "m", 0, 0, 0, .Pending, none⟩ 5).state =
      .Failing ∧
    (failedOp ⟨"a", "/r", .Push, "m", 0, 0, 0, .Pending, none⟩ 5).scheduled_time =
      5 + 600 ∧
    (⟨"a", "/r", .Push, "m", 0, 0, 0, .Pending, none⟩ :
        ScheduledOperation).scheduled_time <
      (failedOp ⟨"a", "/r", .Push, "m", 0, 0, 0, .Pending, none⟩ 5).scheduled_time ∧
    (daemonIteration (fun _ => ExecOutcome.failure "boom")
        (fun _ => Except.ok "") 0 5
        ⟨[⟨"a", "/r", .Push, "m", 0, 0, 0, .Pending, none⟩], []⟩).1.logs =
      [] ++ [failureEntry
        (failedOp ⟨"a", "/r", .Push, "m", 0, 0, 0, .Pending, none⟩ 5) 5 "boom"] ∧
    (failureEntry (failedOp ⟨"a", "/r", .Push, "m", 0, 0, 0, .Pending, none⟩ 5)
        5 "boom").status = .Failure :=
  exec_failure_requeues_with_backoff _ _ 0 5
    ⟨[⟨"a", "/r", .Push, "m", 0, 0, 0, .Pending, none⟩], []⟩
    ⟨"a", "/r", .Push, "m", 0, 0, 0, .Pending, none⟩ "boom"
    (by simp [dueFirst, List.mergeSort, List.find?])
    (by decide) (Or.inl ⟨rfl, rfl⟩)

/-- Witness for C10 on a one-element queue with a failing push executor. -/
theorem daemon_processes_single_earliest_due_witness :
    (⟨"a", "/r", .Push, "m", 0, 0, 0, .Pending, none⟩ :
        ScheduledOperation).scheduled_time ≤ 0 ∧
    (∀ o ∈ ([⟨"a", "/r", .Push, "m", 0, 0, 0, .Pending, none⟩] :
        List ScheduledOperation), o.scheduled_time ≤ 0 →
      (⟨"a", "/r", .Push, "m", 0, 0, 0, .Pending, none⟩ :
        ScheduledOperation).scheduled_time ≤ o.scheduled_time) ∧
    (∀ o ∈ ([⟨"a", "/r", .Push, "m", 0, 0, 0, .Pending, none⟩] :
        List ScheduledOperation).filter (fun o => o.id != "a"),
      o.id ≠ "a") ∧
    (∃ r, (daemonIteration (fun _ => ExecOutcome.failure "boom")
        (fun _ => Except.ok "") 0 5
        ⟨[⟨"a", "/r", .Push, "m", 0, 0, 0, .Pending, none⟩], []⟩).2 =
        DaemonEvent.removed "a" :: DaemonEvent.execStart "a" :: r ∧
        ∀ i, DaemonEvent.execStart i ∉ r) ∧
    (ExecFailed (fun _ => ExecOutcome.failure "boom") (fun _ => Except.ok "")
        ⟨"a", "/r", .Push, "m", 0, 0, 0, .Pending, none⟩ →
      (daemonIteration (fun _ => ExecOutcome.failure "boom")
        (fun _ => Except.ok "") 0 5
        ⟨[⟨"a", "/r", .Push, "m", 0, 0, 0, .Pending, none⟩], []⟩).1.queue =
        ([⟨"a", "/r", .Push, "m", 0, 0, 0, .Pending, none⟩] :
          List ScheduledOperation).filter (fun o => o.id != "a") ++
          [failedOp ⟨"a", "/r", .Push, "m", 0, 0, 0, .Pending, none⟩ 5]) ∧
    (¬ ExecFailed (fun _ => ExecOutcome.failure "boom") (fun _ => Except.ok "")
        ⟨"a", "/r", .Push, "m", 0, 0, 0, .Pending, none⟩ →
      (daemonIteration (fun _ => ExecOutcome.failure "boom")
        (fun _ => Except.ok "") 0 5
        ⟨[⟨"a", "/r", .Push, "m", 0, 0, 0, .Pending, none⟩], []⟩).1.queue =
        ([⟨"a", "/r", .Push, "m", 0, 0, 0, .Pending, none⟩] :
          List ScheduledOperation).filter (fun o => o.id != "a")) :=
  (daemon_processes_single_earliest_due (fun _ => ExecOutcome.failure "boom")
      (fun _ => Except.ok "") 0 5
      ⟨[⟨"a", "/r", .Push, "m", 0, 0, 0, .Pending, none⟩], []⟩).2
    ⟨"a", "/r", .Push, "m", 0, 0, 0, .Pending, none⟩
    (by simp [dueFirst, List.mergeSort, List.find?])

end GitDelayed

